import Mathlib

/-!
The apply-list factory of kube-applier (package `applylist`)

A shallow embedding of `applylist/factory.go` and the properties of it that the
specification states.

Conventions of the embedding.

* A Go `string` is a Lean `String`.  Go compares and indexes strings by bytes; on
  UTF-8 text the first byte is `0x23` exactly when the first character is `#`, the
  bytes `.` and `/` occur only as the characters `.` and `/`, and byte-wise
  lexicographic order is code-point-wise lexicographic order, so the character
  view used here agrees with the byte view.
* A Go `[]string` is a `List String`.
* A call that returns `(value, error)` is an `Except ε value`; the Go statement
  `return nil, nil, nil, err` is `Except.error err`, which carries no list.
* The two collaborators (`sysutil.FileSystemInterface`, `git.GitUtilInterface`)
  are records of functions: what `ReadLines` answers for a path, and what
  `ListAllFiles` answers.  A collaborator answers the same question the same
  way throughout one call of `Create`.
* `stringSliceToMap` and `prependToEachPath` belong to the package but not to
  `factory.go`; they are modelled from the specification, and the join of two
  path segments that `prependToEachPath` applies is a parameter `join` of every
  function that reaches it, so the results hold for every such join.
-/

namespace filepath

/-- The loop of Go's `filepath.Ext`:
`for i := len(path) - 1; i >= 0 && !os.IsPathSeparator(path[i]); i--`
with body `if path[i] == '.' { return path[i:] }`, and `return ""` after it.
The argument `k` is `i + 1`. -/
def extLoop (path : List Char) : Nat → List Char
  | 0 => []
  | i + 1 =>
    if path.getD i ' ' = '/' then []
    else if path.getD i ' ' = '.' then path.drop i
    else extLoop path i

/-- Go's `filepath.Ext` (standard library, with `/` as the path separator): the
suffix beginning at the final dot in the final element of `path`; empty if there
is no dot. -/
def Ext (path : String) : String :=
  String.mk (extLoop path.toList path.toList.length)

end filepath

namespace sort

/-- Go's `sort.Strings`: sorts a slice of strings in increasing (lexicographic)
order.  The sorted arrangement of a list under a linear order is unique, so any
sorting algorithm is a model of it; insertion sort is used, comparing the
strings as character sequences. -/
def Strings (x : List String) : List String :=
  x.insertionSort (fun a b => a.toList ≤ b.toList)

end sort

namespace applylist

/-- The part of `sysutil.FileSystemInterface` the factory uses. -/
structure FileSystemInterface (ε : Type) where
  /-- The lines of the file at a path, or an error. -/
  ReadLines : String → Except ε (List String)

/-- The part of `git.GitUtilInterface` the factory uses. -/
structure GitUtilInterface (ε : Type) where
  /-- The relative paths of all files in the repository, or an error. -/
  ListAllFiles : Except ε (List String)

/-- Factory handles constructing the list of files to apply and the blacklist. -/
structure Factory (ε : Type) where
  RepoPath : String
  BlacklistPath : String
  WhitelistPath : String
  FileSystem : FileSystemInterface ε
  GitUtil : GitUtilInterface ε

/-- Modelled from the spec: `stringSliceToMap` is called by `filter` but is not
among the source files.  The spec: "Build two lookup sets (by exact
absolute-path string equality) from the exclusion and inclusion lists."  A Go
`map[string]struct{}` is a finite set of strings. -/
def stringSliceToMap (slice : List String) : Finset String :=
  slice.toFinset

/-- Modelled from the spec: `prependToEachPath` is called by `createFileList` and
`createApplyList` but is not among the source files.  The spec: "Join the root
directory with each remaining line to form an absolute path" and "Join root
directory to each relative path to get absolute paths."  The join of two path
segments is the parameter `join`. -/
def prependToEachPath (join : String → String → String) (pfx : String)
    (paths : List String) : List String :=
  paths.map (join pfx)

/-- Modelled from the spec: the segment join used with `prependToEachPath` in
concrete scenarios, "simple path-segment join", as in the scenario where root
`/repo` and `a.json` give `/repo/a.json`. -/
def joinPath (root rel : String) : String :=
  root ++ "/" ++ rel

/-- The body of the `for _, l := range rawList` loop of `purgeCommentsFromList`
at index `j`: the state is the backing array of `rawList` and the write index
`i`. -/
def purgeStep (st : List String × Nat) (j : Nat) : List String × Nat :=
  let l := st.1.getD j ""
  if l.length > 0 && l.get 0 != '#' then (st.1.set st.2 l, st.2 + 1) else st

/-- purgeCommentsFromList iterates over the list contents and deletes comment
lines.  The list is compacted in place and `rawList[:i]` is returned. -/
def purgeCommentsFromList (rawList : List String) : List String :=
  let st := (List.range rawList.length).foldl purgeStep (rawList, 0)
  st.1.take st.2

/-- createFileList reads lines from the given file, converts the relative paths
to full paths, and returns a sorted list of full paths. -/
def createFileList {ε : Type} (join : String → String → String) (f : Factory ε)
    (listFilePath : String) : Except ε (List String) :=
  if listFilePath = "" then .ok []
  else
    match f.FileSystem.ReadLines listFilePath with
    | .error err => .error err
    | .ok rawList =>
      let filteredList := purgeCommentsFromList rawList
      let list := prependToEachPath join f.RepoPath filteredList
      .ok (sort.Strings list)

/-- createBlacklist reads lines from the blacklist file, converts the relative
paths to full paths, and returns a sorted list of full paths. -/
def createBlacklist {ε : Type} (join : String → String → String) (f : Factory ε) :
    Except ε (List String) :=
  createFileList join f f.BlacklistPath

/-- createWhitelist reads lines from the whitelist file, converts the relative
paths to full paths, and returns a sorted list of full paths. -/
def createWhitelist {ε : Type} (join : String → String → String) (f : Factory ε) :
    Except ε (List String) :=
  createFileList join f f.WhitelistPath

/-- shouldApplyPath returns true if file path should be applied, false
otherwise. -/
def shouldApplyPath (path : String) (blacklistMap whitelistMap : Finset String) : Bool :=
  let inBlacklist : Bool := decide (path ∈ blacklistMap)
  let inWhiteList : Bool := decide (whitelistMap.card = 0)
  let inWhiteList : Bool := if !inWhiteList then decide (path ∈ whitelistMap) else inWhiteList
  let ext := filepath.Ext path
  inWhiteList && !inBlacklist && (ext == ".json" || ext == ".yaml")

/-- filter iterates through the list of all files in the repo and filters it
down to a list of those that should be applied. -/
def filter (rawApplyList blacklist whitelist : List String) : List String :=
  let blacklistMap := stringSliceToMap blacklist
  let whitelistMap := stringSliceToMap whitelist
  rawApplyList.foldl
    (fun applyList filePath =>
      if shouldApplyPath filePath blacklistMap whitelistMap then applyList ++ [filePath]
      else applyList)
    []

/-- createApplyList gets all files within the repo directory and returns a
filtered and sorted list of full paths. -/
def createApplyList {ε : Type} (join : String → String → String) (f : Factory ε)
    (blacklist whitelist : List String) : Except ε (List String) :=
  match f.GitUtil.ListAllFiles with
  | .error err => .error err
  | .ok rawApplyListRelative =>
    let rawApplyList := prependToEachPath join f.RepoPath rawApplyListRelative
    let applyList := filter rawApplyList blacklist whitelist
    .ok (sort.Strings applyList)

/-- Create returns the alphabetically sorted lists: the list of files to apply,
the blacklist of files to skip, and the whitelist. -/
def Create {ε : Type} (join : String → String → String) (f : Factory ε) :
    Except ε (List String × List String × List String) :=
  match createBlacklist join f with
  | .error err => .error err
  | .ok blacklist =>
    match createWhitelist join f with
    | .error err => .error err
    | .ok whitelist =>
      match createApplyList join f blacklist whitelist with
      | .error err => .error err
      | .ok applyList => .ok (applyList, blacklist, whitelist)

/-- A factory over in-memory collaborators: the blacklist file is at
`/blacklist`, the whitelist file at `/whitelist`, every other path is
unreadable. -/
def memFactory (root : String) (blacklistLines whitelistLines files : List String) :
    Factory String :=
  { RepoPath := root
    BlacklistPath := "/blacklist"
    WhitelistPath := "/whitelist"
    FileSystem :=
      { ReadLines := fun p =>
          if p = "/blacklist" then .ok blacklistLines
          else if p = "/whitelist" then .ok whitelistLines
          else .error "no such file" }
    GitUtil := { ListAllFiles := .ok files } }

/-- A factory whose whitelist names a file that is not enumerated and whose
enumeration lists `c.json` twice. -/
def dupFactory : Factory String :=
  memFactory "/repo" [] ["a/b/c.yaml", "c.json", "someRandomFile.yaml"]
    ["a/b.json", "c.json", "b/c", "a/b/c.yaml", "a/b/c", "c.json"]

/-- A factory whose list files and enumeration are not in order. -/
def unsortedFactory : Factory String :=
  memFactory "/repo" ["z.json", "b/c.json"] ["x.yaml", "b/c.json", "a.json"]
    ["x.yaml", "a.json", "b/c.json", "a/b"]

/-- A factory whose blacklist file has a comment, a blank line, a repeated line
and a path that is not enumerated. -/
def blacklistFactory : Factory String :=
  memFactory "/repo" ["f.json", "# note", "", "a/b/c.yaml", "f.json"] []
    ["a/b.json", "a/b/c.yaml"]

/-- A factory whose line reader fails for the blacklist file at `/blacklist`,
with a given answer for the whitelist file and a given answer of the
enumerator. -/
def brokenFactory (whitelistAnswer files : Except String (List String)) : Factory String :=
  { RepoPath := "/repo"
    BlacklistPath := "/blacklist"
    WhitelistPath := "/whitelist"
    FileSystem :=
      { ReadLines := fun p => if p = "/blacklist" then .error "error" else whitelistAnswer }
    GitUtil := { ListAllFiles := files } }

/-- A factory with no whitelist configured: the whitelist path is empty. -/
def noWhitelistFactory : Factory String :=
  { RepoPath := "/repo"
    BlacklistPath := "/blacklist"
    WhitelistPath := ""
    FileSystem :=
      { ReadLines := fun p =>
          if p = "/blacklist" then .ok ["b.json", "b/c.json"] else .error "no such file" }
    GitUtil := { ListAllFiles := .ok ["a.json", "b.json", "a/b/c.yaml", "a/b", "b/c.json"] } }

/-- A factory whose whitelist and blacklist files both list `a/b/c.yaml`. -/
def bothListsFactory : Factory String :=
  memFactory "/repo" ["a/b/c.yaml", "#   c.json"] ["a/b/c.yaml", "c.json", "#   a/b/c.yaml"]
    ["a/b.json", "b/c", "a/b/c.yaml", "a/b/c", "c.json"]

/-- A factory whose whitelist file is configured and readable but holds only
comments and empty lines. -/
def commentWhitelistFactory : Factory String :=
  memFactory "/repo" ["b.json"] ["# nothing yet", "", "#"] ["a.json", "b.json", "c.yaml", "d"]

/-- The factory `unsortedFactory` with the lines of both list files and the
enumeration in another order. -/
def permutedFactory : Factory String :=
  memFactory "/repo" ["b/c.json", "z.json"] ["a.json", "x.yaml", "b/c.json"]
    ["a/b", "b/c.json", "a.json", "x.yaml"]

/-- A factory whose whitelist file is configured and readable and holds one line,
a `#` comment written after a leading space. -/
def indentedCommentFactory : Factory String :=
  memFactory "/repo" ["b.json"] [" #x"] ["a.json", "b.json", "c.yaml", "d"]


/-- The test of the loop body of `purgeCommentsFromList`:
`len(l) > 0 && string(l[0]) != "#"`. -/
theorem keepLine_iff (l : String) :
    (decide (l.length > 0) && l.get 0 != '#') = true ↔
      l ≠ "" ∧ l.toList.head? ≠ some '#' := by
  rcases l with ⟨cs⟩
  cases cs with
  | nil => simp [String.length]
  | cons c cs =>
    have h1 : (String.mk (c :: cs)).get 0 = c := by
      simp [String.get, String.utf8GetAux]
    have h2 : String.mk (c :: cs) ≠ "" := by
      intro h
      have := congrArg String.length h
      simp [String.length] at this
    simp [h1, h2, String.length]

/-- The invariant of the compaction loop after `j` iterations. -/
theorem purge_loop_inv (raw : List String) (j : Nat) (hj : j ≤ raw.length) :
    ((List.range j).foldl purgeStep (raw, 0)).1.length = raw.length ∧
    ((List.range j).foldl purgeStep (raw, 0)).2 ≤ j ∧
    ((List.range j).foldl purgeStep (raw, 0)).1.take
        ((List.range j).foldl purgeStep (raw, 0)).2 =
      (raw.take j).filter (fun l => decide (l.length > 0) && l.get 0 != '#') ∧
    ((List.range j).foldl purgeStep (raw, 0)).1.drop j = raw.drop j := by
  induction j with
  | zero => simp
  | succ j ih =>
    obtain ⟨hlen, hi, htake, hdrop⟩ := ih (Nat.le_of_succ_le hj)
    have hjlt : j < raw.length := hj
    rw [List.range_succ, List.foldl_append, List.foldl_cons, List.foldl_nil]
    generalize (List.range j).foldl purgeStep (raw, 0) = st at hlen hi htake hdrop
    obtain ⟨arr, i⟩ := st
    simp only at hlen hi htake hdrop
    have hjarr : j < arr.length := by omega
    have hget : arr.getD j "" = raw[j] := by
      have h1 : (arr.drop j)[0]? = (raw.drop j)[0]? := by rw [hdrop]
      simp [List.getElem?_drop] at h1
      rw [List.getD_eq_getElem?_getD, h1]
      simp [hjlt]
    have htk : raw.take (j + 1) = raw.take j ++ [raw[j]] := by
      rw [List.take_succ]
      simp [hjlt]
    unfold purgeStep
    simp only [hget]
    by_cases hk : (decide (raw[j].length > 0) && raw[j].get 0 != '#') = true
    · rw [if_pos hk]
      refine ⟨by simp [hlen], by simp; omega, ?_, ?_⟩
      · simp only
        rw [htk, List.filter_append, ← htake]
        simp only [List.filter_cons, hk, if_true, List.filter_nil]
        have hilt : i < arr.length := by omega
        rw [List.take_succ]
        simp only [List.length_set, hilt, List.getElem?_set_self, Option.toList_some]
        rw [List.set_take, List.set_eq_of_length_le (by simp)]
      · simp only
        rw [List.drop_set_of_lt _ _ (by omega), ← List.drop_drop 1 j, hdrop, List.drop_drop]
    · rw [if_neg hk]
      refine ⟨hlen, by simp; omega, ?_, ?_⟩
      · simp only
        rw [htk, List.filter_append, ← htake]
        simp [List.filter_cons, hk]
      · simp only
        rw [← List.drop_drop 1 j, hdrop, List.drop_drop]

/-- The compaction loop computes the order-preserving filter of its input. -/
theorem purgeCommentsFromList_eq_filter (rawList : List String) :
    purgeCommentsFromList rawList =
      rawList.filter (fun l => decide (l.length > 0) && l.get 0 != '#') := by
  have h := purge_loop_inv rawList rawList.length le_rfl
  unfold purgeCommentsFromList
  simp only
  rw [h.2.2.1, List.take_length]

/-- C4. For every list of lines, `purgeCommentsFromList` (an in-place compaction
of its input) returns exactly the subsequence, in the original order, of the
lines that are non-empty and whose first character is not `#`. -/
theorem purgeCommentsFromList_spec (rawList : List String) :
    purgeCommentsFromList rawList =
      rawList.filter (fun l => decide (l ≠ "" ∧ l.toList.head? ≠ some '#')) := by
  rw [purgeCommentsFromList_eq_filter]
  apply List.filter_congr
  intro l _
  rw [Bool.eq_iff_iff, keepLine_iff]
  simp

/-- The accumulating loop of `filter`, started from any accumulator. -/
theorem filter_loop (keep : String → Bool) (raw acc : List String) :
    raw.foldl (fun applyList filePath =>
        if keep filePath then applyList ++ [filePath] else applyList) acc =
      acc ++ raw.filter keep := by
  induction raw generalizing acc with
  | nil => simp
  | cons p ps ih =>
    rw [List.foldl_cons, ih]
    by_cases hp : keep p = true
    · simp [hp]
    · simp [hp]

/-- The loop of `filter` is the order-preserving filter by `shouldApplyPath`. -/
theorem filter_eq_filter (rawApplyList blacklist whitelist : List String) :
    filter rawApplyList blacklist whitelist =
      rawApplyList.filter (fun p =>
        shouldApplyPath p (stringSliceToMap blacklist) (stringSliceToMap whitelist)) := by
  unfold filter
  simp only
  rw [filter_loop]
  simp

/-- The decision of `shouldApplyPath` on arbitrary lookup sets. -/
theorem shouldApplyPath_iff (path : String) (blacklistMap whitelistMap : Finset String) :
    shouldApplyPath path blacklistMap whitelistMap = true ↔
      (whitelistMap = ∅ ∨ path ∈ whitelistMap) ∧ path ∉ blacklistMap ∧
        (filepath.Ext path = ".json" ∨ filepath.Ext path = ".yaml") := by
  unfold shouldApplyPath
  by_cases hw : whitelistMap = ∅
  · simp [hw]
  · have hc : whitelistMap.card ≠ 0 := by
      simpa [Finset.card_eq_zero] using hw
    simp [hw, hc, and_assoc]

/-- The decision of `shouldApplyPath` on the lookup sets built from two lists. -/
theorem shouldApplyPath_lists_iff (path : String) (blacklist whitelist : List String) :
    shouldApplyPath path (stringSliceToMap blacklist) (stringSliceToMap whitelist) = true ↔
      (whitelist = [] ∨ path ∈ whitelist) ∧ path ∉ blacklist ∧
        (filepath.Ext path = ".json" ∨ filepath.Ext path = ".yaml") := by
  rw [shouldApplyPath_iff]
  simp [stringSliceToMap, List.toFinset_eq_empty_iff]

/-- C1. For every raw apply list, blacklist and whitelist, `filter` returns
exactly the order-preserving sublist of the raw apply list made of the paths for
which `shouldApplyPath` holds, and `shouldApplyPath` holds of a path if and only
if (the whitelist is empty or the path is a member of the whitelist) and the path
is not a member of the blacklist and the extension of the path is `.json` or
`.yaml`. -/
theorem filter_correct (rawApplyList blacklist whitelist : List String) :
    filter rawApplyList blacklist whitelist =
        rawApplyList.filter (fun p =>
          shouldApplyPath p (stringSliceToMap blacklist) (stringSliceToMap whitelist)) ∧
      (∀ p : String,
        shouldApplyPath p (stringSliceToMap blacklist) (stringSliceToMap whitelist) = true ↔
          (whitelist = [] ∨ p ∈ whitelist) ∧ p ∉ blacklist ∧
            (filepath.Ext p = ".json" ∨ filepath.Ext p = ".yaml")) ∧
      (∀ (p : String) (blacklistMap whitelistMap : Finset String),
        shouldApplyPath p blacklistMap whitelistMap = true ↔
          (whitelistMap = ∅ ∨ p ∈ whitelistMap) ∧ p ∉ blacklistMap ∧
            (filepath.Ext p = ".json" ∨ filepath.Ext p = ".yaml")) :=
  ⟨filter_eq_filter rawApplyList blacklist whitelist,
    fun p => shouldApplyPath_lists_iff p blacklist whitelist,
    fun p blacklistMap whitelistMap => shouldApplyPath_iff p blacklistMap whitelistMap⟩

/-- The comparison used by `sort.Strings` is the order of strings. -/
theorem toList_le_iff (a b : String) : a.toList ≤ b.toList ↔ a ≤ b :=
  String.le_iff_toList_le.symm

/-- The result of `sort.Strings` is a rearrangement of its argument. -/
theorem sortStrings_perm (x : List String) : (sort.Strings x).Perm x :=
  List.perm_insertionSort _ x

/-- The result of `sort.Strings` is in non-decreasing order. -/
theorem sortStrings_sorted (x : List String) : (sort.Strings x).Sorted (· ≤ ·) := by
  haveI : IsTotal String (fun a b => a.toList ≤ b.toList) := ⟨fun a b => le_total _ _⟩
  haveI : IsTrans String (fun a b => a.toList ≤ b.toList) := ⟨fun _ _ _ h1 h2 => le_trans h1 h2⟩
  have h := List.sorted_insertionSort (fun a b : String => a.toList ≤ b.toList) x
  unfold sort.Strings
  refine List.Pairwise.imp ?_ h
  intro a b hab
  exact (toList_le_iff a b).mp hab

/-- Membership is not changed by `sort.Strings`. -/
theorem mem_sortStrings (p : String) (x : List String) : p ∈ sort.Strings x ↔ p ∈ x :=
  (sortStrings_perm x).mem_iff

/-- A sorted rearrangement of a list is what `sort.Strings` returns. -/
theorem eq_sortStrings_of_sorted_perm (x y : List String) (hs : y.Sorted (· ≤ ·))
    (hp : y.Perm x) : y = sort.Strings x :=
  List.eq_of_perm_of_sorted (hp.trans (sortStrings_perm x).symm) hs (sortStrings_sorted x)

/-- The successful results of `createFileList`. -/
theorem createFileList_ok_iff {ε : Type} (join : String → String → String) (f : Factory ε)
    (listFilePath : String) (list : List String) :
    createFileList join f listFilePath = .ok list ↔
      (listFilePath = "" ∧ list = []) ∨
      (listFilePath ≠ "" ∧ ∃ rawList, f.FileSystem.ReadLines listFilePath = .ok rawList ∧
        list = sort.Strings (prependToEachPath join f.RepoPath (purgeCommentsFromList rawList))) := by
  unfold createFileList
  by_cases hp : listFilePath = ""
  · simp [hp, eq_comm]
  · simp only [hp, if_false, false_and, false_or, ne_eq, not_false_eq_true, true_and]
    cases hr : f.FileSystem.ReadLines listFilePath with
    | error err => simp
    | ok rawList => simp [eq_comm]

/-- The failing results of `createFileList`. -/
theorem createFileList_error_iff {ε : Type} (join : String → String → String) (f : Factory ε)
    (listFilePath : String) (e : ε) :
    createFileList join f listFilePath = .error e ↔
      listFilePath ≠ "" ∧ f.FileSystem.ReadLines listFilePath = .error e := by
  unfold createFileList
  by_cases hp : listFilePath = ""
  · simp [hp]
  · simp only [hp, if_false, ne_eq, not_false_eq_true, true_and]
    cases hr : f.FileSystem.ReadLines listFilePath with
    | error err => simp
    | ok rawList => simp

/-- The successful results of `createApplyList`. -/
theorem createApplyList_ok_iff {ε : Type} (join : String → String → String) (f : Factory ε)
    (blacklist whitelist applyList : List String) :
    createApplyList join f blacklist whitelist = .ok applyList ↔
      ∃ files, f.GitUtil.ListAllFiles = .ok files ∧
        applyList = sort.Strings
          (filter (prependToEachPath join f.RepoPath files) blacklist whitelist) := by
  unfold createApplyList
  cases hr : f.GitUtil.ListAllFiles with
  | error err => simp
  | ok files => simp [eq_comm]

/-- The failing results of `createApplyList`. -/
theorem createApplyList_error_iff {ε : Type} (join : String → String → String) (f : Factory ε)
    (blacklist whitelist : List String) (e : ε) :
    createApplyList join f blacklist whitelist = .error e ↔
      f.GitUtil.ListAllFiles = .error e := by
  unfold createApplyList
  cases hr : f.GitUtil.ListAllFiles with
  | error err => simp
  | ok files => simp

/-- The successful results of `Create`: all three steps succeeded. -/
theorem Create_ok_iff {ε : Type} (join : String → String → String) (f : Factory ε)
    (applyList blacklist whitelist : List String) :
    Create join f = .ok (applyList, blacklist, whitelist) ↔
      createBlacklist join f = .ok blacklist ∧ createWhitelist join f = .ok whitelist ∧
        createApplyList join f blacklist whitelist = .ok applyList := by
  unfold Create
  cases hb : createBlacklist join f with
  | error err => simp
  | ok bl =>
    cases hw : createWhitelist join f with
    | error err => simp
    | ok wl =>
      cases ha : createApplyList join f bl wl with
      | error err =>
        simp only [ha, reduceCtorEq, Except.ok.injEq, false_iff, not_and]
        intro h1 h2
        subst h1 h2
        simp [ha]
      | ok al =>
        simp only [ha, Except.ok.injEq, Prod.mk.injEq]
        constructor
        · rintro ⟨h1, h2, h3⟩
          subst h1 h2 h3
          exact ⟨rfl, rfl, ha⟩
        · rintro ⟨h1, h2, h3⟩
          subst h1 h2
          rw [ha] at h3
          exact ⟨Except.ok.inj h3, rfl, rfl⟩

/-- The failing results of `Create`: the error of the first step that fails. -/
theorem Create_error_iff {ε : Type} (join : String → String → String) (f : Factory ε) (e : ε) :
    Create join f = .error e ↔
      createBlacklist join f = .error e ∨
      (∃ blacklist, createBlacklist join f = .ok blacklist ∧
        (createWhitelist join f = .error e ∨
          ∃ whitelist, createWhitelist join f = .ok whitelist ∧
            createApplyList join f blacklist whitelist = .error e)) := by
  unfold Create
  cases hb : createBlacklist join f with
  | error err => simp
  | ok bl =>
    cases hw : createWhitelist join f with
    | error err => simp
    | ok wl =>
      cases ha : createApplyList join f bl wl with
      | error err => simp [ha]
      | ok al => simp [ha]

/-- The number of occurrences of a path in the result of `filter`. -/
theorem count_filter_paths (rawApplyList blacklist whitelist : List String) (p : String) :
    (filter rawApplyList blacklist whitelist).count p =
      if shouldApplyPath p (stringSliceToMap blacklist) (stringSliceToMap whitelist) = true
      then rawApplyList.count p else 0 := by
  rw [filter_eq_filter]
  split
  · next hp => exact List.count_filter (by simpa using hp)
  · next hp =>
    rw [List.count_eq_zero]
    intro hmem
    exact hp (List.mem_filter.mp hmem).2

/-- C2. For every successful `createApplyList` (and hence `Create`) and every
path, the number of occurrences of the path in the returned apply list equals
its number of occurrences in the root-joined enumeration when the path passes the
keep predicate, and is 0 otherwise; so the apply list contains only enumerated
files and the duplicates of the enumeration are propagated. -/
theorem createApplyList_count {ε : Type} (join : String → String → String) (f : Factory ε)
    (applyList blacklist whitelist : List String)
    (h : createApplyList join f blacklist whitelist = .ok applyList ∨
      Create join f = .ok (applyList, blacklist, whitelist)) :
    ∃ files, f.GitUtil.ListAllFiles = .ok files ∧
      (∀ p : String, applyList.count p =
        if shouldApplyPath p (stringSliceToMap blacklist) (stringSliceToMap whitelist) = true
        then (prependToEachPath join f.RepoPath files).count p else 0) ∧
      (∀ p : String, p ∈ applyList → p ∈ prependToEachPath join f.RepoPath files) := by
  have h1 : createApplyList join f blacklist whitelist = .ok applyList := by
    rcases h with h | h
    · exact h
    · exact ((Create_ok_iff join f applyList blacklist whitelist).mp h).2.2
  obtain ⟨files, hfiles, ha⟩ := (createApplyList_ok_iff join f blacklist whitelist applyList).mp h1
  refine ⟨files, hfiles, ?_, ?_⟩
  · intro p
    rw [ha, (sortStrings_perm _).count_eq, count_filter_paths]
  · intro p hp
    rw [ha, mem_sortStrings, filter_eq_filter] at hp
    exact (List.mem_filter.mp hp).1

/-- Witness of C2: a whitelist entry that is not enumerated, and a path that is
enumerated twice. -/
theorem createApplyList_count_witness :
    Create joinPath dupFactory =
      .ok (["/repo/a/b/c.yaml", "/repo/c.json", "/repo/c.json"], [],
        ["/repo/a/b/c.yaml", "/repo/c.json", "/repo/someRandomFile.yaml"]) ∧
    ∃ files, dupFactory.GitUtil.ListAllFiles =
          .ok files ∧
      (∀ p : String, ["/repo/a/b/c.yaml", "/repo/c.json", "/repo/c.json"].count p =
        if shouldApplyPath p (stringSliceToMap [])
          (stringSliceToMap ["/repo/a/b/c.yaml", "/repo/c.json", "/repo/someRandomFile.yaml"]) = true
        then (prependToEachPath joinPath "/repo" files).count p else 0) ∧
      (∀ p : String, p ∈ ["/repo/a/b/c.yaml", "/repo/c.json", "/repo/c.json"] →
        p ∈ prependToEachPath joinPath "/repo" files) :=
  ⟨rfl, createApplyList_count joinPath dupFactory _ _ _ (Or.inr rfl)⟩

/-- C3. For every input on which `Create` succeeds, each of the three returned
lists (apply list, blacklist, whitelist) is sorted in non-decreasing
lexicographic order of its path strings. -/
theorem Create_sorted {ε : Type} (join : String → String → String) (f : Factory ε)
    (applyList blacklist whitelist : List String)
    (h : Create join f = .ok (applyList, blacklist, whitelist)) :
    applyList.Sorted (· ≤ ·) ∧ blacklist.Sorted (· ≤ ·) ∧ whitelist.Sorted (· ≤ ·) := by
  obtain ⟨hb, hw, ha⟩ := (Create_ok_iff join f applyList blacklist whitelist).mp h
  have hlist : ∀ path list, createFileList join f path = .ok list → list.Sorted (· ≤ ·) := by
    intro path list hl
    rcases (createFileList_ok_iff join f path list).mp hl with ⟨_, hnil⟩ | ⟨_, raw, _, hsort⟩
    · rw [hnil]
      exact List.sorted_nil
    · rw [hsort]
      exact sortStrings_sorted _
  obtain ⟨files, _, hsort⟩ := (createApplyList_ok_iff join f blacklist whitelist applyList).mp ha
  refine ⟨?_, hlist _ _ hb, hlist _ _ hw⟩
  rw [hsort]
  exact sortStrings_sorted _

/-- Witness of C3: unsorted list files and an unsorted enumeration. -/
theorem Create_sorted_witness :
    Create joinPath unsortedFactory =
      .ok (["/repo/a.json", "/repo/x.yaml"], ["/repo/b/c.json", "/repo/z.json"],
        ["/repo/a.json", "/repo/b/c.json", "/repo/x.yaml"]) ∧
    (["/repo/a.json", "/repo/x.yaml"].Sorted (· ≤ ·) ∧
      ["/repo/b/c.json", "/repo/z.json"].Sorted (· ≤ ·) ∧
      ["/repo/a.json", "/repo/b/c.json", "/repo/x.yaml"].Sorted (· ≤ ·)) :=
  ⟨rfl, Create_sorted joinPath unsortedFactory _ _ _ rfl⟩

/-- The list returned by `createFileList` for a configured path. -/
theorem createFileList_configured {ε : Type} (join : String → String → String) (f : Factory ε)
    (listFilePath : String) (list : List String) (hp : listFilePath ≠ "")
    (h : createFileList join f listFilePath = .ok list) :
    ∃ lines, f.FileSystem.ReadLines listFilePath = .ok lines ∧
      list = sort.Strings
        ((lines.filter (fun l => decide (l ≠ "" ∧ l.toList.head? ≠ some '#'))).map
          (join f.RepoPath)) := by
  rcases (createFileList_ok_iff join f listFilePath list).mp h with ⟨h0, _⟩ | ⟨_, raw, hr, hl⟩
  · exact absurd h0 hp
  · refine ⟨raw, hr, ?_⟩
    rw [hl, purgeCommentsFromList_eq_filter]
    unfold prependToEachPath
    congr 2
    apply List.filter_congr
    intro l _
    rw [Bool.eq_iff_iff, keepLine_iff]
    simp

/-- C5. For every successful `Create` with a non-empty blacklist path, the
returned exclusion list is the lexicographically sorted list of the root-joined
lines of the exclusion file that survive comment/blank stripping (one entry per
surviving line, duplicates kept), whatever the enumerator returns: a listed path
that is absent from the repository enumeration still appears in it. -/
theorem Create_returns_blacklist {ε : Type} (join : String → String → String) (f : Factory ε)
    (applyList blacklist whitelist : List String)
    (h : Create join f = .ok (applyList, blacklist, whitelist))
    (hp : f.BlacklistPath ≠ "") :
    ∃ lines, f.FileSystem.ReadLines f.BlacklistPath = .ok lines ∧
      blacklist = sort.Strings
        ((lines.filter (fun l => decide (l ≠ "" ∧ l.toList.head? ≠ some '#'))).map
          (join f.RepoPath)) ∧
      blacklist.Sorted (· ≤ ·) ∧
      blacklist.Perm
        ((lines.filter (fun l => decide (l ≠ "" ∧ l.toList.head? ≠ some '#'))).map
          (join f.RepoPath)) ∧
      (∀ l : String, l ∈ lines → l ≠ "" → l.toList.head? ≠ some '#' →
        join f.RepoPath l ∈ blacklist) ∧
      (∀ (g : GitUtilInterface ε) (applyList' blacklist' whitelist' : List String),
        Create join { f with GitUtil := g } = .ok (applyList', blacklist', whitelist') →
          blacklist' = blacklist) := by
  obtain ⟨hb, _, _⟩ := (Create_ok_iff join f applyList blacklist whitelist).mp h
  obtain ⟨lines, hr, hl⟩ := createFileList_configured join f f.BlacklistPath blacklist hp hb
  refine ⟨lines, hr, hl, ?_, ?_, ?_, ?_⟩
  · rw [hl]
    exact sortStrings_sorted _
  · rw [hl]
    exact sortStrings_perm _
  · intro l hmem hne hhash
    rw [hl, mem_sortStrings]
    exact List.mem_map.mpr ⟨l, List.mem_filter.mpr ⟨hmem, decide_eq_true ⟨hne, hhash⟩⟩, rfl⟩
  · intro g applyList' blacklist' whitelist' h'
    obtain ⟨hb', _, _⟩ :=
      (Create_ok_iff join { f with GitUtil := g } applyList' blacklist' whitelist').mp h'
    have hsame : createBlacklist join { f with GitUtil := g } = createBlacklist join f := rfl
    rw [hsame, hb] at hb'
    exact (Except.ok.inj hb').symm

/-- Witness of C5: `/repo/f.json` is listed twice, is not enumerated, and is
returned twice. -/
theorem Create_returns_blacklist_witness :
    (Create joinPath blacklistFactory =
        .ok (["/repo/a/b.json"], ["/repo/a/b/c.yaml", "/repo/f.json", "/repo/f.json"], []) ∧
      blacklistFactory.BlacklistPath ≠ "") ∧
    ∃ lines, blacklistFactory.FileSystem.ReadLines blacklistFactory.BlacklistPath = .ok lines ∧
      ["/repo/a/b/c.yaml", "/repo/f.json", "/repo/f.json"] = sort.Strings
        ((lines.filter (fun l => decide (l ≠ "" ∧ l.toList.head? ≠ some '#'))).map
          (joinPath blacklistFactory.RepoPath)) ∧
      ["/repo/a/b/c.yaml", "/repo/f.json", "/repo/f.json"].Sorted (· ≤ ·) ∧
      ["/repo/a/b/c.yaml", "/repo/f.json", "/repo/f.json"].Perm
        ((lines.filter (fun l => decide (l ≠ "" ∧ l.toList.head? ≠ some '#'))).map
          (joinPath blacklistFactory.RepoPath)) ∧
      (∀ l : String, l ∈ lines → l ≠ "" → l.toList.head? ≠ some '#' →
        joinPath blacklistFactory.RepoPath l ∈
          ["/repo/a/b/c.yaml", "/repo/f.json", "/repo/f.json"]) ∧
      (∀ (g : GitUtilInterface String) (applyList' blacklist' whitelist' : List String),
        Create joinPath { blacklistFactory with GitUtil := g } =
            .ok (applyList', blacklist', whitelist') →
          blacklist' = ["/repo/a/b/c.yaml", "/repo/f.json", "/repo/f.json"]) :=
  ⟨⟨rfl, by decide⟩, Create_returns_blacklist joinPath blacklistFactory _ _ _ rfl (by decide)⟩

/-- A list file either is not configured, or is read, or fails to be read; in
the first two cases `createFileList` succeeds. -/
theorem createFileList_ok_of_not_fails {ε : Type} (join : String → String → String)
    (f : Factory ε) (listFilePath : String)
    (h : ¬(listFilePath ≠ "" ∧ ∃ e, f.FileSystem.ReadLines listFilePath = .error e)) :
    ∃ list, createFileList join f listFilePath = .ok list := by
  cases hc : createFileList join f listFilePath with
  | ok list => exact ⟨list, rfl⟩
  | error e =>
    obtain ⟨h1, h2⟩ := (createFileList_error_iff join f listFilePath e).mp hc
    exact absurd ⟨h1, e, h2⟩ h

/-- The error of `Create`, in terms of the answers of the collaborators. -/
theorem Create_error_steps {ε : Type} (join : String → String → String) (f : Factory ε) (e : ε) :
    Create join f = .error e ↔
      (f.BlacklistPath ≠ "" ∧ f.FileSystem.ReadLines f.BlacklistPath = .error e) ∨
      (¬(f.BlacklistPath ≠ "" ∧ ∃ e', f.FileSystem.ReadLines f.BlacklistPath = .error e') ∧
        f.WhitelistPath ≠ "" ∧ f.FileSystem.ReadLines f.WhitelistPath = .error e) ∨
      (¬(f.BlacklistPath ≠ "" ∧ ∃ e', f.FileSystem.ReadLines f.BlacklistPath = .error e') ∧
        ¬(f.WhitelistPath ≠ "" ∧ ∃ e', f.FileSystem.ReadLines f.WhitelistPath = .error e') ∧
        f.GitUtil.ListAllFiles = .error e) := by
  rw [Create_error_iff]
  unfold createBlacklist createWhitelist
  constructor
  · rintro (hb | ⟨bl, hb, hw | ⟨wl, hw, ha⟩⟩)
    · exact Or.inl ((createFileList_error_iff join f _ e).mp hb)
    · have hnb : ¬(f.BlacklistPath ≠ "" ∧
          ∃ e', f.FileSystem.ReadLines f.BlacklistPath = .error e') := by
        rintro ⟨h1, e', h2⟩
        have := (createFileList_error_iff join f _ e').mpr ⟨h1, h2⟩
        rw [hb] at this
        cases this
      obtain ⟨h1, h2⟩ := (createFileList_error_iff join f _ e).mp hw
      exact Or.inr (Or.inl ⟨hnb, h1, h2⟩)
    · have hnb : ¬(f.BlacklistPath ≠ "" ∧
          ∃ e', f.FileSystem.ReadLines f.BlacklistPath = .error e') := by
        rintro ⟨h1, e', h2⟩
        have := (createFileList_error_iff join f _ e').mpr ⟨h1, h2⟩
        rw [hb] at this
        cases this
      have hnw : ¬(f.WhitelistPath ≠ "" ∧
          ∃ e', f.FileSystem.ReadLines f.WhitelistPath = .error e') := by
        rintro ⟨h1, e', h2⟩
        have := (createFileList_error_iff join f _ e').mpr ⟨h1, h2⟩
        rw [hw] at this
        cases this
      exact Or.inr (Or.inr ⟨hnb, hnw, (createApplyList_error_iff join f bl wl e).mp ha⟩)
  · rintro (⟨h1, h2⟩ | ⟨hnb, h1, h2⟩ | ⟨hnb, hnw, ha⟩)
    · exact Or.inl ((createFileList_error_iff join f _ e).mpr ⟨h1, h2⟩)
    · obtain ⟨bl, hb⟩ := createFileList_ok_of_not_fails join f _ hnb
      exact Or.inr ⟨bl, hb, Or.inl ((createFileList_error_iff join f _ e).mpr ⟨h1, h2⟩)⟩
    · obtain ⟨bl, hb⟩ := createFileList_ok_of_not_fails join f _ hnb
      obtain ⟨wl, hw⟩ := createFileList_ok_of_not_fails join f _ hnw
      exact Or.inr ⟨bl, hb, Or.inr ⟨wl, hw, (createApplyList_error_iff join f bl wl e).mpr ha⟩⟩

/-- C6. `Create` returns an error if and only if reading the (configured,
non-empty-path) blacklist file fails, or reading the (configured) whitelist file
fails, or the enumerator fails; the error returned is, unchanged, that of the
earliest failing step in the order blacklist, whitelist, enumeration.  An error
result is `Except.error`, the embedding of `return nil, nil, nil, err`: it
carries no list. -/
theorem Create_fails_exactly {ε : Type} (join : String → String → String) (f : Factory ε) :
    ((∃ e, Create join f = .error e) ↔
      (f.BlacklistPath ≠ "" ∧ ∃ e, f.FileSystem.ReadLines f.BlacklistPath = .error e) ∨
      (f.WhitelistPath ≠ "" ∧ ∃ e, f.FileSystem.ReadLines f.WhitelistPath = .error e) ∨
      (∃ e, f.GitUtil.ListAllFiles = .error e)) ∧
    (∀ e : ε, Create join f = .error e ↔
      (f.BlacklistPath ≠ "" ∧ f.FileSystem.ReadLines f.BlacklistPath = .error e) ∨
      (¬(f.BlacklistPath ≠ "" ∧ ∃ e', f.FileSystem.ReadLines f.BlacklistPath = .error e') ∧
        f.WhitelistPath ≠ "" ∧ f.FileSystem.ReadLines f.WhitelistPath = .error e) ∨
      (¬(f.BlacklistPath ≠ "" ∧ ∃ e', f.FileSystem.ReadLines f.BlacklistPath = .error e') ∧
        ¬(f.WhitelistPath ≠ "" ∧ ∃ e', f.FileSystem.ReadLines f.WhitelistPath = .error e') ∧
        f.GitUtil.ListAllFiles = .error e)) := by
  refine ⟨?_, Create_error_steps join f⟩
  constructor
  · rintro ⟨e, he⟩
    rcases (Create_error_steps join f e).mp he with ⟨h1, h2⟩ | ⟨_, h1, h2⟩ | ⟨_, _, h3⟩
    · exact Or.inl ⟨h1, e, h2⟩
    · exact Or.inr (Or.inl ⟨h1, e, h2⟩)
    · exact Or.inr (Or.inr ⟨e, h3⟩)
  · intro h
    by_cases hb : f.BlacklistPath ≠ "" ∧ ∃ e, f.FileSystem.ReadLines f.BlacklistPath = .error e
    · obtain ⟨h1, e, h2⟩ := hb
      exact ⟨e, (Create_error_steps join f e).mpr (Or.inl ⟨h1, h2⟩)⟩
    · by_cases hw : f.WhitelistPath ≠ "" ∧
          ∃ e, f.FileSystem.ReadLines f.WhitelistPath = .error e
      · obtain ⟨h1, e, h2⟩ := hw
        exact ⟨e, (Create_error_steps join f e).mpr (Or.inr (Or.inl ⟨hb, h1, h2⟩))⟩
      · rcases h with h | h | ⟨e, h3⟩
        · exact absurd h hb
        · exact absurd h hw
        · exact ⟨e, (Create_error_steps join f e).mpr (Or.inr (Or.inr ⟨hb, hw, h3⟩))⟩

/-- C7. When the line reader fails for the blacklist file, the enumerator is
never consulted: for every two factories that agree on the blacklist path and on
the failure of the reader for it, whatever their enumerators and whatever their
readers answer for the whitelist file, `Create` returns the same result, namely
the error of the reader. -/
theorem Create_reader_failure {ε : Type} (join : String → String → String)
    (f g : Factory ε) (e : ε)
    (hp : f.BlacklistPath ≠ "")
    (hf : f.FileSystem.ReadLines f.BlacklistPath = .error e)
    (hpath : g.BlacklistPath = f.BlacklistPath)
    (hg : g.FileSystem.ReadLines g.BlacklistPath = .error e) :
    Create join f = .error e ∧ Create join g = Create join f := by
  have h1 : Create join f = .error e :=
    (Create_error_steps join f e).mpr (Or.inl ⟨hp, hf⟩)
  have h2 : Create join g = .error e :=
    (Create_error_steps join g e).mpr (Or.inl ⟨by rw [hpath]; exact hp, hg⟩)
  exact ⟨h1, by rw [h1, h2]⟩

/-- Witness of C7: one factory has a working enumerator and a readable
whitelist, the other a failing enumerator and an unreadable whitelist. -/
theorem Create_reader_failure_witness :
    ((brokenFactory (.ok ["a.json"]) (.ok ["a.json", "b.json"])).BlacklistPath ≠ "" ∧
      (brokenFactory (.ok ["a.json"]) (.ok ["a.json", "b.json"])).FileSystem.ReadLines
          (brokenFactory (.ok ["a.json"]) (.ok ["a.json", "b.json"])).BlacklistPath =
        .error "error" ∧
      (brokenFactory (.error "unreadable") (.error "no repository")).BlacklistPath =
        (brokenFactory (.ok ["a.json"]) (.ok ["a.json", "b.json"])).BlacklistPath ∧
      (brokenFactory (.error "unreadable") (.error "no repository")).FileSystem.ReadLines
          (brokenFactory (.error "unreadable") (.error "no repository")).BlacklistPath =
        .error "error") ∧
    (Create joinPath (brokenFactory (.ok ["a.json"]) (.ok ["a.json", "b.json"])) =
        .error "error" ∧
      Create joinPath (brokenFactory (.error "unreadable") (.error "no repository")) =
        Create joinPath (brokenFactory (.ok ["a.json"]) (.ok ["a.json", "b.json"]))) :=
  ⟨⟨by decide, rfl, rfl, rfl⟩,
    Create_reader_failure joinPath (brokenFactory (.ok ["a.json"]) (.ok ["a.json", "b.json"]))
      (brokenFactory (.error "unreadable") (.error "no repository")) "error"
      (by decide) rfl rfl rfl⟩

/-- C8. When the whitelist path is the empty string and `Create` succeeds, the
apply list contains every root-joined enumerated path that is not in the
exclusion list and whose extension is `.json` or `.yaml` (the absent inclusion
filter excludes nothing): it is the sorted list of exactly those paths. -/
theorem Create_no_whitelist {ε : Type} (join : String → String → String) (f : Factory ε)
    (applyList blacklist whitelist : List String)
    (h : Create join f = .ok (applyList, blacklist, whitelist))
    (hw : f.WhitelistPath = "") :
    whitelist = [] ∧
    ∃ files, f.GitUtil.ListAllFiles = .ok files ∧
      applyList = sort.Strings
        ((prependToEachPath join f.RepoPath files).filter (fun p =>
          decide (p ∉ blacklist ∧ (filepath.Ext p = ".json" ∨ filepath.Ext p = ".yaml")))) ∧
      applyList.Sorted (· ≤ ·) ∧
      applyList.Perm
        ((prependToEachPath join f.RepoPath files).filter (fun p =>
          decide (p ∉ blacklist ∧ (filepath.Ext p = ".json" ∨ filepath.Ext p = ".yaml")))) ∧
      (∀ p : String, p ∈ applyList ↔
        p ∈ prependToEachPath join f.RepoPath files ∧ p ∉ blacklist ∧
          (filepath.Ext p = ".json" ∨ filepath.Ext p = ".yaml")) := by
  obtain ⟨_, hwl, ha⟩ := (Create_ok_iff join f applyList blacklist whitelist).mp h
  have hnil : whitelist = [] := by
    unfold createWhitelist at hwl
    rcases (createFileList_ok_iff join f _ whitelist).mp hwl with ⟨_, h0⟩ | ⟨h1, _⟩
    · exact h0
    · exact absurd hw h1
  obtain ⟨files, hfiles, hsort⟩ :=
    (createApplyList_ok_iff join f blacklist whitelist applyList).mp ha
  have hfilter : filter (prependToEachPath join f.RepoPath files) blacklist whitelist =
      (prependToEachPath join f.RepoPath files).filter (fun p =>
        decide (p ∉ blacklist ∧ (filepath.Ext p = ".json" ∨ filepath.Ext p = ".yaml"))) := by
    rw [filter_eq_filter]
    apply List.filter_congr
    intro p _
    rw [Bool.eq_iff_iff, shouldApplyPath_lists_iff, hnil]
    simp
  rw [hfilter] at hsort
  refine ⟨hnil, files, hfiles, hsort, ?_, ?_, ?_⟩
  · rw [hsort]
    exact sortStrings_sorted _
  · rw [hsort]
    exact sortStrings_perm _
  · intro p
    rw [hsort, mem_sortStrings, List.mem_filter]
    simp

/-- Witness of C8: the whitelist path is empty and two files are blacklisted. -/
theorem Create_no_whitelist_witness :
    (Create joinPath noWhitelistFactory =
        .ok (["/repo/a.json", "/repo/a/b/c.yaml"], ["/repo/b.json", "/repo/b/c.json"], []) ∧
      noWhitelistFactory.WhitelistPath = "") ∧
    (([] : List String) = [] ∧
    ∃ files, noWhitelistFactory.GitUtil.ListAllFiles = .ok files ∧
      ["/repo/a.json", "/repo/a/b/c.yaml"] = sort.Strings
        ((prependToEachPath joinPath noWhitelistFactory.RepoPath files).filter (fun p =>
          decide (p ∉ ["/repo/b.json", "/repo/b/c.json"] ∧
            (filepath.Ext p = ".json" ∨ filepath.Ext p = ".yaml")))) ∧
      ["/repo/a.json", "/repo/a/b/c.yaml"].Sorted (· ≤ ·) ∧
      ["/repo/a.json", "/repo/a/b/c.yaml"].Perm
        ((prependToEachPath joinPath noWhitelistFactory.RepoPath files).filter (fun p =>
          decide (p ∉ ["/repo/b.json", "/repo/b/c.json"] ∧
            (filepath.Ext p = ".json" ∨ filepath.Ext p = ".yaml")))) ∧
      (∀ p : String, p ∈ ["/repo/a.json", "/repo/a/b/c.yaml"] ↔
        p ∈ prependToEachPath joinPath noWhitelistFactory.RepoPath files ∧
          p ∉ ["/repo/b.json", "/repo/b/c.json"] ∧
          (filepath.Ext p = ".json" ∨ filepath.Ext p = ".yaml"))) :=
  ⟨⟨rfl, rfl⟩, Create_no_whitelist joinPath noWhitelistFactory _ _ _ rfl rfl⟩

/-- C9. For every successful `Create`, no element of the apply list is a member
of the returned exclusion list; a path that appears in both the returned
inclusion list and the returned exclusion list does not appear in the apply list
(exclusion wins); and a line that both list files hold (neither blank nor a
comment) is, root-joined, in both returned lists and not in the apply list. -/
theorem Create_exclusion_wins {ε : Type} (join : String → String → String) (f : Factory ε)
    (applyList blacklist whitelist : List String)
    (h : Create join f = .ok (applyList, blacklist, whitelist)) :
    (∀ p : String, p ∈ applyList → p ∉ blacklist) ∧
    (∀ p : String, p ∈ whitelist → p ∈ blacklist →
      p ∉ applyList ∧ p ∈ blacklist ∧ p ∈ whitelist) ∧
    (∀ (blacklistLines whitelistLines : List String) (l : String),
      f.BlacklistPath ≠ "" → f.WhitelistPath ≠ "" →
      f.FileSystem.ReadLines f.BlacklistPath = .ok blacklistLines →
      f.FileSystem.ReadLines f.WhitelistPath = .ok whitelistLines →
      l ∈ blacklistLines → l ∈ whitelistLines → l ≠ "" → l.toList.head? ≠ some '#' →
        join f.RepoPath l ∈ blacklist ∧ join f.RepoPath l ∈ whitelist ∧
          join f.RepoPath l ∉ applyList) := by
  obtain ⟨hb, hwl, ha⟩ := (Create_ok_iff join f applyList blacklist whitelist).mp h
  obtain ⟨files, _, hsort⟩ :=
    (createApplyList_ok_iff join f blacklist whitelist applyList).mp ha
  have hex : ∀ p : String, p ∈ applyList → p ∉ blacklist := by
    intro p hp
    rw [hsort, mem_sortStrings, filter_eq_filter, List.mem_filter,
      shouldApplyPath_lists_iff] at hp
    exact hp.2.2.1
  have hline : ∀ (path : String) (list lines : List String) (l : String),
      path ≠ "" → createFileList join f path = .ok list →
      f.FileSystem.ReadLines path = .ok lines →
      l ∈ lines → l ≠ "" → l.toList.head? ≠ some '#' → join f.RepoPath l ∈ list := by
    intro path list lines l hpath hlist hread hmem hne hhash
    obtain ⟨lines', hread', hl⟩ := createFileList_configured join f path list hpath hlist
    rw [hread] at hread'
    have hlines : lines = lines' := Except.ok.inj hread'
    subst hlines
    rw [hl, mem_sortStrings]
    exact List.mem_map.mpr ⟨l, List.mem_filter.mpr ⟨hmem, decide_eq_true ⟨hne, hhash⟩⟩, rfl⟩
  refine ⟨hex, ?_, ?_⟩
  · intro p hpw hpb
    exact ⟨fun hpa => hex p hpa hpb, hpb, hpw⟩
  · intro blacklistLines whitelistLines l hbp hwp hbr hwr hlb hlw hne hhash
    have h1 := hline _ blacklist blacklistLines l hbp hb hbr hlb hne hhash
    have h2 := hline _ whitelist whitelistLines l hwp hwl hwr hlw hne hhash
    exact ⟨h1, h2, fun hpa => hex _ hpa h1⟩

/-- Witness of C9: `a/b/c.yaml` is in both list files, is enumerated, and is in
both returned lists but not in the apply list. -/
theorem Create_exclusion_wins_witness :
    Create joinPath bothListsFactory =
      .ok (["/repo/c.json"], ["/repo/a/b/c.yaml"], ["/repo/a/b/c.yaml", "/repo/c.json"]) ∧
    (∀ p : String, p ∈ ["/repo/c.json"] → p ∉ ["/repo/a/b/c.yaml"]) ∧
    (joinPath "/repo" "a/b/c.yaml" ∈ ["/repo/a/b/c.yaml"] ∧
      joinPath "/repo" "a/b/c.yaml" ∈ ["/repo/a/b/c.yaml", "/repo/c.json"] ∧
      joinPath "/repo" "a/b/c.yaml" ∉ ["/repo/c.json"]) :=
  ⟨rfl, (Create_exclusion_wins joinPath bothListsFactory _ _ _ rfl).1,
    (Create_exclusion_wins joinPath bothListsFactory _ _ _ rfl).2.2
      ["a/b/c.yaml", "#   c.json"] ["a/b/c.yaml", "c.json", "#   a/b/c.yaml"] "a/b/c.yaml"
      (by decide) (by decide) rfl rfl (by decide) (by decide) (by decide) (by decide)⟩

/-- The scan of `filepath.Ext` returns nothing or a suffix of the path. -/
theorem extLoop_nil_or_drop (path : List Char) (k : Nat) :
    filepath.extLoop path k = [] ∨ ∃ i, filepath.extLoop path k = path.drop i := by
  induction k with
  | zero => exact Or.inl rfl
  | succ i ih =>
    unfold filepath.extLoop
    split
    · exact Or.inl rfl
    · split
      · exact Or.inr ⟨i, rfl⟩
      · exact ih

/-- The scan of `filepath.Ext` stops at a dot that is followed by neither a dot
nor a separator. -/
theorem extLoop_of_dot_suffix (pre t : List Char) (hdot : '.' ∉ t) (hsep : '/' ∉ t)
    (m : Nat) (hm : m ≤ t.length) :
    filepath.extLoop (pre ++ '.' :: t) (pre.length + 1 + m) = '.' :: t := by
  induction m with
  | zero =>
    have hget : (pre ++ '.' :: t).getD pre.length ' ' = '.' := by
      rw [List.getD_eq_getElem?_getD, List.getElem?_append_right (le_refl _)]
      simp
    rw [Nat.add_zero]
    unfold filepath.extLoop
    rw [hget]
    simp
  | succ m ih =>
    have hlt : m < t.length := hm
    have hget : (pre ++ '.' :: t).getD (pre.length + 1 + m) ' ' = t[m] := by
      rw [List.getD_eq_getElem?_getD, List.getElem?_append_right (by omega)]
      have : pre.length + 1 + m - pre.length = m + 1 := by omega
      rw [this]
      simp [hlt]
    have hmem : t[m] ∈ t := List.getElem_mem hlt
    have h1 : t[m] ≠ '/' := fun h => hsep (h ▸ hmem)
    have h2 : t[m] ≠ '.' := fun h => hdot (h ▸ hmem)
    rw [← Nat.add_assoc]
    unfold filepath.extLoop
    rw [hget, if_neg h1, if_neg h2]
    exact ih (Nat.le_of_succ_le hm)

/-- The scan of `filepath.Ext` finds nothing in a last element without a dot. -/
theorem extLoop_of_no_dot (pre base : List Char) (hdot : '.' ∉ base)
    (hpre : pre = [] ∨ ∃ dir, pre = dir ++ ['/']) (m : Nat) (hm : m ≤ base.length) :
    filepath.extLoop (pre ++ base) (pre.length + m) = [] := by
  induction m with
  | zero =>
    rcases hpre with h0 | ⟨dir, hdir⟩
    · subst h0
      rfl
    · subst hdir
      have hget : (dir ++ ['/'] ++ base).getD dir.length ' ' = '/' := by
        rw [List.append_assoc, List.getD_eq_getElem?_getD,
          List.getElem?_append_right (le_refl _)]
        simp
      have hlen : (dir ++ ['/']).length + 0 = dir.length + 1 := by simp
      rw [hlen]
      unfold filepath.extLoop
      rw [hget]
      simp
  | succ m ih =>
    have hlt : m < base.length := hm
    have hget : (pre ++ base).getD (pre.length + m) ' ' = base[m] := by
      rw [List.getD_eq_getElem?_getD, List.getElem?_append_right (by omega)]
      simp [hlt]
    have hmem : base[m] ∈ base := List.getElem_mem hlt
    have h2 : base[m] ≠ '.' := fun h => hdot (h ▸ hmem)
    rw [← Nat.add_assoc]
    unfold filepath.extLoop
    rw [hget, if_neg h2]
    split
    · rfl
    · exact ih (Nat.le_of_succ_le hm)

/-- The extension of a path that ends with a dot followed by characters other
than dots and separators is that ending. -/
theorem Ext_append (pre : String) (t : List Char) (hdot : '.' ∉ t) (hsep : '/' ∉ t) :
    filepath.Ext (pre ++ String.mk ('.' :: t)) = String.mk ('.' :: t) := by
  unfold filepath.Ext
  have hlist : (pre ++ String.mk ('.' :: t)).toList = pre.toList ++ '.' :: t := by
    simp [String.toList]
  rw [hlist]
  have hlen : (pre.toList ++ '.' :: t).length = pre.toList.length + 1 + t.length := by
    simp
    omega
  rw [hlen, extLoop_of_dot_suffix pre.toList t hdot hsep t.length le_rfl]

/-- A path whose extension is not empty ends with its extension. -/
theorem Ext_suffix (path : String) (h : filepath.Ext path ≠ "") :
    ∃ pre : String, path = pre ++ filepath.Ext path := by
  unfold filepath.Ext at h ⊢
  rcases extLoop_nil_or_drop path.toList path.toList.length with h0 | ⟨i, hi⟩
  · rw [h0] at h
    exact absurd rfl h
  · rw [hi]
    refine ⟨String.mk (path.toList.take i), ?_⟩
    apply String.ext
    simp [String.toList]

/-- The extension is `ending` exactly for the paths that end with `ending`, when
`ending` is a dot followed by characters other than dots and separators. -/
theorem Ext_eq_iff (path : String) (t : List Char) (hdot : '.' ∉ t) (hsep : '/' ∉ t) :
    filepath.Ext path = String.mk ('.' :: t) ↔
      ∃ pre : String, path = pre ++ String.mk ('.' :: t) := by
  constructor
  · intro h
    have hne : filepath.Ext path ≠ "" := by
      rw [h]
      intro hc
      have := congrArg String.length hc
      simp [String.length] at this
    obtain ⟨pre, hpre⟩ := Ext_suffix path hne
    exact ⟨pre, by rw [h] at hpre; exact hpre⟩
  · rintro ⟨pre, rfl⟩
    exact Ext_append pre t hdot hsep

/-- The extension of a path whose last element has no dot is empty. -/
theorem Ext_no_dot (pre base : String) (hdot : '.' ∉ base.toList)
    (hpre : pre = "" ∨ ∃ dir : String, pre = dir ++ "/") :
    filepath.Ext (pre ++ base) = "" := by
  unfold filepath.Ext
  have hlist : (pre ++ base).toList = pre.toList ++ base.toList := by
    simp [String.toList]
  have hpre' : pre.toList = [] ∨ ∃ dir, pre.toList = dir ++ ['/'] := by
    rcases hpre with h0 | ⟨dir, hdir⟩
    · exact Or.inl (by rw [h0]; rfl)
    · exact Or.inr ⟨dir.toList, by rw [hdir]; simp [String.toList]⟩
  rw [hlist, List.length_append,
    extLoop_of_no_dot pre.toList base.toList hdot hpre' base.toList.length le_rfl]

/-- C10. With an empty blacklist and an empty whitelist, `shouldApplyPath`
accepts a path if and only if the path string ends, case-sensitively, with
`.json` or `.yaml`; in particular paths ending in `.yml` or `.JSON`, and paths
whose last element has no dot, are rejected. -/
theorem shouldApplyPath_extension :
    (∀ p : String, shouldApplyPath p (stringSliceToMap []) (stringSliceToMap []) = true ↔
      (∃ pre : String, p = pre ++ ".json") ∨ (∃ pre : String, p = pre ++ ".yaml")) ∧
    (∀ pre : String,
      shouldApplyPath (pre ++ ".yml") (stringSliceToMap []) (stringSliceToMap []) = false) ∧
    (∀ pre : String,
      shouldApplyPath (pre ++ ".JSON") (stringSliceToMap []) (stringSliceToMap []) = false) ∧
    (∀ base : String, '.' ∉ base.toList →
      shouldApplyPath base (stringSliceToMap []) (stringSliceToMap []) = false) ∧
    (∀ dir base : String, '.' ∉ base.toList →
      shouldApplyPath (dir ++ "/" ++ base) (stringSliceToMap []) (stringSliceToMap []) =
        false) := by
  have hjson : ∀ p : String, filepath.Ext p = ".json" ↔ ∃ pre : String, p = pre ++ ".json" :=
    fun p => Ext_eq_iff p ['j', 's', 'o', 'n'] (by decide) (by decide)
  have hyaml : ∀ p : String, filepath.Ext p = ".yaml" ↔ ∃ pre : String, p = pre ++ ".yaml" :=
    fun p => Ext_eq_iff p ['y', 'a', 'm', 'l'] (by decide) (by decide)
  have hiff : ∀ p : String,
      shouldApplyPath p (stringSliceToMap []) (stringSliceToMap []) = true ↔
        (filepath.Ext p = ".json" ∨ filepath.Ext p = ".yaml") := by
    intro p
    rw [shouldApplyPath_lists_iff]
    simp
  have hrej : ∀ p : String, filepath.Ext p ≠ ".json" → filepath.Ext p ≠ ".yaml" →
      shouldApplyPath p (stringSliceToMap []) (stringSliceToMap []) = false := by
    intro p h1 h2
    rw [Bool.eq_false_iff, ne_eq, hiff]
    exact fun h => h.elim h1 h2
  refine ⟨?_, ?_, ?_, ?_, ?_⟩
  · intro p
    rw [hiff, hjson, hyaml]
  · intro pre
    have h : filepath.Ext (pre ++ ".yml") = ".yml" :=
      Ext_append pre ['y', 'm', 'l'] (by decide) (by decide)
    exact hrej _ (by rw [h]; decide) (by rw [h]; decide)
  · intro pre
    have h : filepath.Ext (pre ++ ".JSON") = ".JSON" :=
      Ext_append pre ['J', 'S', 'O', 'N'] (by decide) (by decide)
    exact hrej _ (by rw [h]; decide) (by rw [h]; decide)
  · intro base hdot
    have h : filepath.Ext ("" ++ base) = "" := Ext_no_dot "" base hdot (Or.inl rfl)
    have hb : "" ++ base = base := by apply String.ext; simp
    rw [hb] at h
    exact hrej _ (by rw [h]; decide) (by rw [h]; decide)
  · intro dir base hdot
    have h : filepath.Ext (dir ++ "/" ++ base) = "" :=
      Ext_no_dot (dir ++ "/") base hdot (Or.inr ⟨dir, rfl⟩)
    exact hrej _ (by rw [h]; decide) (by rw [h]; decide)

/-- C11. When the list-file path is the empty string, `createFileList` returns
an empty list and no error, and the line reader is never invoked for it: the
result is the same for every line reader, including one that always fails. -/
theorem createFileList_unconfigured {ε : Type} (join : String → String → String)
    (f : Factory ε) :
    createFileList join f "" = .ok [] ∧
    (∀ fs : FileSystemInterface ε,
      createFileList join { f with FileSystem := fs } "" = createFileList join f "") ∧
    (∀ e : ε,
      createFileList join { f with FileSystem := { ReadLines := fun _ => .error e } } "" =
        .ok []) :=
  ⟨rfl, fun _ => rfl, fun _ => rfl⟩

/-- C12. `purgeCommentsFromList` removes a line equal to exactly `#` and a line
`# x`, but keeps a line ` #x` that has a leading space before the `#`: on
`["#", "# x", " #x"]` it returns `[" #x"]`. -/
theorem purgeCommentsFromList_hash_lines :
    purgeCommentsFromList ["#", "# x", " #x"] = [" #x"] ∧
    (∀ rawList : List String,
      "#" ∉ purgeCommentsFromList rawList ∧ "# x" ∉ purgeCommentsFromList rawList ∧
        (" #x" ∈ purgeCommentsFromList rawList ↔ " #x" ∈ rawList)) := by
  refine ⟨by decide, fun rawList => ?_⟩
  rw [purgeCommentsFromList_eq_filter]
  simp only [List.mem_filter]
  refine ⟨?_, ?_, ?_⟩
  · rintro ⟨_, h⟩
    exact absurd h (by decide)
  · rintro ⟨_, h⟩
    exact absurd h (by decide)
  · exact ⟨fun h => h.1, fun h => ⟨h, by decide⟩⟩

/-- C13. Stripping comments and blanks is idempotent: for every list of lines,
`purgeCommentsFromList` applied twice equals `purgeCommentsFromList` applied
once. -/
theorem purgeCommentsFromList_idempotent (rawList : List String) :
    purgeCommentsFromList (purgeCommentsFromList rawList) = purgeCommentsFromList rawList := by
  rw [purgeCommentsFromList_eq_filter rawList, purgeCommentsFromList_eq_filter,
    List.filter_filter]
  apply List.filter_congr
  intro l _
  simp

/-- C14. With root `/repo`, a blacklist file whose lines are `b.json` and
`b/c.json`, a whitelist file with no lines, and the enumeration `a.json`,
`b.json`, `a/b/c.yaml`, `a/b`, `b/c.json`, `Create` succeeds with the apply list
`/repo/a.json`, `/repo/a/b/c.yaml` and the exclusion list `/repo/b.json`,
`/repo/b/c.json`, for every segment join that puts `/repo/` before each of these
relative paths. -/
theorem Create_blacklist_scenario (join : String → String → String)
    (hjoin : ∀ rel : String, rel ∈ ["a.json", "b.json", "a/b/c.yaml", "a/b", "b/c.json"] →
      join "/repo" rel = "/repo/" ++ rel) :
    Create join (memFactory "/repo" ["b.json", "b/c.json"] []
        ["a.json", "b.json", "a/b/c.yaml", "a/b", "b/c.json"]) =
      .ok (["/repo/a.json", "/repo/a/b/c.yaml"], ["/repo/b.json", "/repo/b/c.json"], []) := by
  have hb : prependToEachPath join "/repo" ["b.json", "b/c.json"] =
      ["/repo/b.json", "/repo/b/c.json"] := by
    unfold prependToEachPath
    rw [List.map_cons, List.map_cons, List.map_nil, hjoin "b.json" (by decide),
      hjoin "b/c.json" (by decide)]
    rfl
  have hf : prependToEachPath join "/repo"
        ["a.json", "b.json", "a/b/c.yaml", "a/b", "b/c.json"] =
      ["/repo/a.json", "/repo/b.json", "/repo/a/b/c.yaml", "/repo/a/b", "/repo/b/c.json"] := by
    unfold prependToEachPath
    simp only [List.map_cons, List.map_nil]
    rw [hjoin "a.json" (by decide), hjoin "b.json" (by decide),
      hjoin "a/b/c.yaml" (by decide), hjoin "a/b" (by decide), hjoin "b/c.json" (by decide)]
    rfl
  rw [Create_ok_iff]
  refine ⟨?_, ?_, ?_⟩
  · unfold createBlacklist
    rw [createFileList_ok_iff]
    refine Or.inr ⟨by decide, ["b.json", "b/c.json"], rfl, ?_⟩
    have hpurge : purgeCommentsFromList ["b.json", "b/c.json"] = ["b.json", "b/c.json"] := by
      decide
    show _ = sort.Strings (prependToEachPath join "/repo" _)
    rw [hpurge, hb]
    rfl
  · unfold createWhitelist
    rw [createFileList_ok_iff]
    exact Or.inr ⟨by decide, [], rfl, rfl⟩
  · rw [createApplyList_ok_iff]
    refine ⟨["a.json", "b.json", "a/b/c.yaml", "a/b", "b/c.json"], rfl, ?_⟩
    show _ = sort.Strings (filter (prependToEachPath join "/repo" _) _ _)
    rw [hf]
    rfl

/-- Witness of C14: the segment join `joinPath`. -/
theorem Create_blacklist_scenario_witness :
    (∀ rel : String, rel ∈ ["a.json", "b.json", "a/b/c.yaml", "a/b", "b/c.json"] →
      joinPath "/repo" rel = "/repo/" ++ rel) ∧
    Create joinPath (memFactory "/repo" ["b.json", "b/c.json"] []
        ["a.json", "b.json", "a/b/c.yaml", "a/b", "b/c.json"]) =
      .ok (["/repo/a.json", "/repo/a/b/c.yaml"], ["/repo/b.json", "/repo/b/c.json"], []) :=
  ⟨fun _ _ => rfl, Create_blacklist_scenario joinPath (fun _ _ => rfl)⟩

/-- C15 (the code departs from its doc comment). The doc comment of
`purgeCommentsFromList` calls a comment "a line whose first non-space character
is #", but only the first character is tested: the line ` #x`, whose first
non-space character is `#`, is kept, so it is not true that no line of the result
has `#` as its first non-space character. -/
theorem purgeCommentsFromList_keeps_indented_comment :
    purgeCommentsFromList [" #x"] = [" #x"] ∧
    (" #x".toList.dropWhile (fun c => c == ' ')).head? = some '#' ∧
    ¬ ∀ rawList : List String, ∀ l : String, l ∈ purgeCommentsFromList rawList →
      (l.toList.dropWhile (fun c => c == ' ')).head? ≠ some '#' := by
  refine ⟨by decide, by decide, fun h => ?_⟩
  exact h [" #x"] " #x" (by decide) (by decide)

/-- `Create` is determined by the results of its three steps. -/
theorem Create_congr {ε : Type} (join : String → String → String) (f g : Factory ε)
    (hb : createBlacklist join g = createBlacklist join f)
    (hw : createWhitelist join g = createWhitelist join f)
    (ha : ∀ blacklist whitelist : List String,
      createApplyList join g blacklist whitelist = createApplyList join f blacklist whitelist) :
    Create join g = Create join f := by
  unfold Create
  rw [hb, hw]
  cases createBlacklist join f with
  | error err => rfl
  | ok blacklist =>
    cases createWhitelist join f with
    | error err => rfl
    | ok whitelist =>
      simp only
      rw [ha]

/-- A list of lines that are all empty or comments is stripped to nothing. -/
theorem purgeCommentsFromList_eq_nil (lines : List String)
    (hl : ∀ l : String, l ∈ lines → l = "" ∨ l.toList.head? = some '#') :
    purgeCommentsFromList lines = [] := by
  rw [purgeCommentsFromList_eq_filter, List.filter_eq_nil_iff]
  intro l hmem hkeep
  have h := (keepLine_iff l).mp hkeep
  rcases hl l hmem with h0 | h1
  · exact h.1 h0
  · exact h.2 h1

/-- A whitelist file that is configured (non-empty path) and read successfully
but whose lines are all empty or have `#` as their first character acts as no
whitelist at all: `Create` returns the same result as it does with the whitelist
path set to the empty string, and everything passing the exclusion and extension
checks is applied.  Lines that are comments only after leading spaces are not
covered: they are not stripped. -/
theorem Create_comment_only_whitelist {ε : Type} (join : String → String → String)
    (f : Factory ε) (lines : List String)
    (hp : f.WhitelistPath ≠ "")
    (hr : f.FileSystem.ReadLines f.WhitelistPath = .ok lines)
    (hl : ∀ l : String, l ∈ lines → l = "" ∨ l.toList.head? = some '#') :
    Create join f = Create join { f with WhitelistPath := "" } ∧
    (∀ applyList blacklist whitelist : List String,
      Create join f = .ok (applyList, blacklist, whitelist) →
        whitelist = [] ∧
        ∃ files, f.GitUtil.ListAllFiles = .ok files ∧
          ∀ p : String, p ∈ applyList ↔
            p ∈ prependToEachPath join f.RepoPath files ∧ p ∉ blacklist ∧
              (filepath.Ext p = ".json" ∨ filepath.Ext p = ".yaml")) := by
  have hwl : createWhitelist join f = .ok [] := by
    unfold createWhitelist
    rw [createFileList_ok_iff]
    refine Or.inr ⟨hp, lines, hr, ?_⟩
    rw [purgeCommentsFromList_eq_nil lines hl]
    rfl
  constructor
  · exact (Create_congr join f { f with WhitelistPath := "" } rfl
      (by rw [hwl]; rfl) (fun _ _ => rfl)).symm
  · intro applyList blacklist whitelist h
    obtain ⟨_, hw, ha⟩ := (Create_ok_iff join f applyList blacklist whitelist).mp h
    rw [hwl] at hw
    have hnil : whitelist = [] := (Except.ok.inj hw).symm
    obtain ⟨files, hfiles, hsort⟩ :=
      (createApplyList_ok_iff join f blacklist whitelist applyList).mp ha
    refine ⟨hnil, files, hfiles, ?_⟩
    intro p
    rw [hsort, mem_sortStrings, filter_eq_filter, List.mem_filter, shouldApplyPath_lists_iff,
      hnil]
    simp

/-- An instance of `Create_comment_only_whitelist`: a whitelist file of two
comments that begin with `#` and an empty line. -/
theorem Create_comment_only_whitelist_witness :
    (commentWhitelistFactory.WhitelistPath ≠ "" ∧
      commentWhitelistFactory.FileSystem.ReadLines commentWhitelistFactory.WhitelistPath =
        .ok ["# nothing yet", "", "#"] ∧
      (∀ l : String, l ∈ ["# nothing yet", "", "#"] → l = "" ∨ l.toList.head? = some '#')) ∧
    Create joinPath commentWhitelistFactory =
      .ok (["/repo/a.json", "/repo/c.yaml"], ["/repo/b.json"], []) ∧
    Create joinPath commentWhitelistFactory =
      Create joinPath { commentWhitelistFactory with WhitelistPath := "" } :=
  ⟨⟨by decide, rfl, by decide⟩, rfl,
    (Create_comment_only_whitelist joinPath commentWhitelistFactory
      ["# nothing yet", "", "#"] (by decide) rfl (by decide)).1⟩

/-- C16 (the code departs from its doc comment, by the defect of C15). A
whitelist file that is configured and read successfully and whose only line is
the comment ` #x` (first non-space character `#`) does not act as no whitelist:
the line is not stripped, the whitelist is `/repo/ #x` and the apply list is
empty, while with the whitelist path set to the empty string the apply list is
`/repo/a.json`, `/repo/c.yaml`.  So it is not true that for every whitelist file
whose lines are all blank or comments `Create` returns the same apply list as
with the empty whitelist path. -/
theorem Create_indented_comment_whitelist :
    Create joinPath indentedCommentFactory =
      .ok ([], ["/repo/b.json"], ["/repo/ #x"]) ∧
    Create joinPath { indentedCommentFactory with WhitelistPath := "" } =
      .ok (["/repo/a.json", "/repo/c.yaml"], ["/repo/b.json"], []) ∧
    (" #x".toList.dropWhile (fun c => c == ' ')).head? = some '#' ∧
    ¬ ∀ (f : Factory String) (lines : List String),
      f.WhitelistPath ≠ "" → f.FileSystem.ReadLines f.WhitelistPath = .ok lines →
      (∀ l : String, l ∈ lines →
        (l.toList.dropWhile (fun c => c == ' ')).head? = none ∨
          (l.toList.dropWhile (fun c => c == ' ')).head? = some '#') →
      ∀ applyList blacklist whitelist applyList' blacklist' whitelist' : List String,
        Create joinPath f = .ok (applyList, blacklist, whitelist) →
        Create joinPath { f with WhitelistPath := "" } =
            .ok (applyList', blacklist', whitelist') →
          applyList = applyList' := by
  refine ⟨rfl, rfl, by decide, fun h => ?_⟩
  have hne : ([] : List String) = ["/repo/a.json", "/repo/c.yaml"] :=
    h indentedCommentFactory [" #x"] (by decide) rfl (by decide) _ _ _ _ _ _ rfl rfl
  exact absurd hne (by decide)

/-- The result of `sort.Strings` does not depend on the order of its argument. -/
theorem sortStrings_congr (x y : List String) (h : x.Perm y) :
    sort.Strings x = sort.Strings y :=
  eq_sortStrings_of_sorted_perm y (sort.Strings x) (sortStrings_sorted x)
    ((sortStrings_perm x).trans h)

/-- The list that `createFileList` returns does not depend on the order of the
lines of the list file. -/
theorem createFileList_perm {ε : Type} (join : String → String → String) (f g : Factory ε)
    (listFilePath : String) (hroot : g.RepoPath = f.RepoPath)
    (h : listFilePath = "" ∨ ∃ l l', f.FileSystem.ReadLines listFilePath = .ok l ∧
      g.FileSystem.ReadLines listFilePath = .ok l' ∧ l.Perm l') :
    createFileList join g listFilePath = createFileList join f listFilePath ∧
      ∃ list, createFileList join f listFilePath = .ok list := by
  rcases h with h0 | ⟨l, l', hl, hl', hperm⟩
  · subst h0
    exact ⟨rfl, [], rfl⟩
  · by_cases hp : listFilePath = ""
    · subst hp
      exact ⟨rfl, [], rfl⟩
    · have hf : createFileList join f listFilePath =
          .ok (sort.Strings (prependToEachPath join f.RepoPath (purgeCommentsFromList l))) :=
        (createFileList_ok_iff join f listFilePath _).mpr (Or.inr ⟨hp, l, hl, rfl⟩)
      have hg : createFileList join g listFilePath =
          .ok (sort.Strings (prependToEachPath join g.RepoPath (purgeCommentsFromList l'))) :=
        (createFileList_ok_iff join g listFilePath _).mpr (Or.inr ⟨hp, l', hl', rfl⟩)
      refine ⟨?_, _, hf⟩
      rw [hf, hg, hroot]
      congr 1
      apply sortStrings_congr
      unfold prependToEachPath
      rw [purgeCommentsFromList_eq_filter, purgeCommentsFromList_eq_filter]
      exact ((hperm.filter _).map _).symm

/-- The apply list does not depend on the order of the enumeration. -/
theorem createApplyList_perm {ε : Type} (join : String → String → String) (f g : Factory ε)
    (blacklist whitelist : List String) (hroot : g.RepoPath = f.RepoPath)
    (h : ∃ l l', f.GitUtil.ListAllFiles = .ok l ∧ g.GitUtil.ListAllFiles = .ok l' ∧
      l.Perm l') :
    createApplyList join g blacklist whitelist = createApplyList join f blacklist whitelist ∧
      ∃ applyList, createApplyList join f blacklist whitelist = .ok applyList := by
  obtain ⟨l, l', hl, hl', hperm⟩ := h
  have hf : createApplyList join f blacklist whitelist =
      .ok (sort.Strings (filter (prependToEachPath join f.RepoPath l) blacklist whitelist)) :=
    (createApplyList_ok_iff join f blacklist whitelist _).mpr ⟨l, hl, rfl⟩
  have hg : createApplyList join g blacklist whitelist =
      .ok (sort.Strings (filter (prependToEachPath join g.RepoPath l') blacklist whitelist)) :=
    (createApplyList_ok_iff join g blacklist whitelist _).mpr ⟨l', hl', rfl⟩
  refine ⟨?_, _, hf⟩
  rw [hf, hg, hroot]
  congr 1
  apply sortStrings_congr
  rw [filter_eq_filter, filter_eq_filter]
  unfold prependToEachPath
  exact ((hperm.map _).filter _).symm

/-- C17. The result of `Create` does not depend on the order of its inputs'
entries: when the enumeration of one factory is a permutation of that of another
and the lines of its blacklist and whitelist files are permutations of the
other's, `Create` succeeds and returns the same three lists for both. -/
theorem Create_order_independent {ε : Type} (join : String → String → String)
    (f g : Factory ε)
    (hroot : g.RepoPath = f.RepoPath)
    (hbpath : g.BlacklistPath = f.BlacklistPath)
    (hwpath : g.WhitelistPath = f.WhitelistPath)
    (hb : f.BlacklistPath = "" ∨ ∃ l l', f.FileSystem.ReadLines f.BlacklistPath = .ok l ∧
      g.FileSystem.ReadLines f.BlacklistPath = .ok l' ∧ l.Perm l')
    (hw : f.WhitelistPath = "" ∨ ∃ l l', f.FileSystem.ReadLines f.WhitelistPath = .ok l ∧
      g.FileSystem.ReadLines f.WhitelistPath = .ok l' ∧ l.Perm l')
    (hf : ∃ l l', f.GitUtil.ListAllFiles = .ok l ∧ g.GitUtil.ListAllFiles = .ok l' ∧
      l.Perm l') :
    (∃ applyList blacklist whitelist : List String,
      Create join f = .ok (applyList, blacklist, whitelist)) ∧
    Create join g = Create join f := by
  obtain ⟨hbeq, bl, hbl⟩ := createFileList_perm join f g f.BlacklistPath hroot hb
  obtain ⟨hweq, wl, hwl⟩ := createFileList_perm join f g f.WhitelistPath hroot hw
  obtain ⟨_, al, hal⟩ := createApplyList_perm join f g bl wl hroot hf
  constructor
  · exact ⟨al, bl, wl, (Create_ok_iff join f al bl wl).mpr ⟨hbl, hwl, hal⟩⟩
  · apply Create_congr
    · unfold createBlacklist
      rw [hbpath]
      exact hbeq
    · unfold createWhitelist
      rw [hwpath]
      exact hweq
    · intro blacklist whitelist
      exact (createApplyList_perm join f g blacklist whitelist hroot hf).1

/-- Witness of C17: `permutedFactory` holds the entries of `unsortedFactory` in
another order. -/
theorem Create_order_independent_witness :
    Create joinPath unsortedFactory =
      .ok (["/repo/a.json", "/repo/x.yaml"], ["/repo/b/c.json", "/repo/z.json"],
        ["/repo/a.json", "/repo/b/c.json", "/repo/x.yaml"]) ∧
    Create joinPath permutedFactory = Create joinPath unsortedFactory :=
  ⟨rfl,
    (Create_order_independent joinPath unsortedFactory permutedFactory rfl rfl rfl
      (Or.inr ⟨["z.json", "b/c.json"], ["b/c.json", "z.json"], rfl, rfl, by decide⟩)
      (Or.inr ⟨["x.yaml", "b/c.json", "a.json"], ["a.json", "x.yaml", "b/c.json"], rfl, rfl,
        by decide⟩)
      ⟨["x.yaml", "a.json", "b/c.json", "a/b"], ["a/b", "b/c.json", "a.json", "x.yaml"],
        rfl, rfl, by decide⟩).2⟩

/-- C18. `filter` is anti-monotone in the blacklist: when every element of one
blacklist is in another, the result of `filter` with the larger blacklist is a
sublist of its result with the smaller one; adding exclusions never adds a path
to the apply list. -/
theorem filter_antitone_blacklist (rawApplyList whitelist blacklist blacklist' : List String)
    (h : ∀ p : String, p ∈ blacklist → p ∈ blacklist') :
    (filter rawApplyList blacklist' whitelist).Sublist
        (filter rawApplyList blacklist whitelist) ∧
    (∀ p : String, p ∈ filter rawApplyList blacklist' whitelist →
      p ∈ filter rawApplyList blacklist whitelist) := by
  have hsub : (filter rawApplyList blacklist' whitelist).Sublist
      (filter rawApplyList blacklist whitelist) := by
    rw [filter_eq_filter, filter_eq_filter]
    apply List.monotone_filter_right
    intro p hp
    rw [shouldApplyPath_lists_iff] at hp ⊢
    exact ⟨hp.1, fun hmem => hp.2.1 (h p hmem), hp.2.2⟩
  exact ⟨hsub, fun p hp => hsub.subset hp⟩

/-- Witness of C18: adding `/repo/a.json` to the blacklist removes it from the
result. -/
theorem filter_antitone_blacklist_witness :
    (∀ p : String, p ∈ ["/repo/b.json"] → p ∈ ["/repo/a.json", "/repo/b.json"]) ∧
    (filter ["/repo/a.json", "/repo/b.json", "/repo/c.yaml"]
        ["/repo/a.json", "/repo/b.json"] []).Sublist
      (filter ["/repo/a.json", "/repo/b.json", "/repo/c.yaml"] ["/repo/b.json"] []) ∧
    filter ["/repo/a.json", "/repo/b.json", "/repo/c.yaml"]
        ["/repo/a.json", "/repo/b.json"] [] = ["/repo/c.yaml"] ∧
    filter ["/repo/a.json", "/repo/b.json", "/repo/c.yaml"] ["/repo/b.json"] [] =
      ["/repo/a.json", "/repo/c.yaml"] :=
  ⟨by decide,
    (filter_antitone_blacklist ["/repo/a.json", "/repo/b.json", "/repo/c.yaml"] []
      ["/repo/b.json"] ["/repo/a.json", "/repo/b.json"] (by decide)).1,
    by decide, by decide⟩

end applylist
